import Mathlib

/-!
Verification of the flow-jsonschema repository's core subsystems against its
design specification.

The development shallowly embeds:
* the recursive type-descriptor-to-JSON-schema compiler `parseDesc` (both the
  copy in the asynchronous module and the copy in `src/index.js`),
* the cancellable delay primitive `sleep`,
* the resilient oracle invoker `callFlowAutoRetry` (as a deterministic
  interpreter over a script of scheduler events),
* the re-export resolver `flowTypeByName`, and
* the per-type error-isolation policy of the schema assembler
  (`makeSchemaFlow89`).

JavaScript objects are embedded as ordered association lists of fields (the
`J` type below), matching JS insertion-order semantics: assigning to an
existing key updates it in place, assigning to a fresh key appends it.
JS numbers are embedded as `Int` (the claims only involve integral literals).
Thrown exceptions are embedded as `Except` values.
-/

mutual

/-- Literal JSON-ish values and objects, mirroring the plain-data schema
fragments the compiler produces. `J.obj` keeps fields in insertion order. -/
inductive J where
  | s (v : String)
  | n (v : Int)
  | b (v : Bool)
  | jnull
  | arr (elems : JList)
  | obj (fields : JFields)

/-- Ordered list of JSON values (element type of `J.arr`). -/
inductive JList where
  | nil
  | cons (hd : J) (tl : JList)

/-- Ordered association list of object fields (field list of `J.obj`). -/
inductive JFields where
  | nil
  | cons (key : String) (val : J) (tl : JFields)

end

/-- Reads a field of a JS object: first field with the given key, if any. -/
def getField : JFields → String → Option J
  | .nil, _ => none
  | .cons k v tl, name => if k = name then some v else getField tl name

/-- JS assignment `o[key] = v`: updates an existing key in place, otherwise
appends the new field at the end (insertion order). -/
def setField : JFields → String → J → JFields
  | .nil, name, v => .cons name v .nil
  | .cons k w tl, name, v =>
    if k = name then .cons k v tl else .cons k w (setField tl name v)

/-- Converts a Lean list of values to a `JList` (for stating results). -/
def toJList : List J → JList
  | [] => .nil
  | x :: xs => .cons x (toJList xs)

/-- Wraps a list of strings as a `JList` of JSON strings. -/
def jStrings (names : List String) : JList := toJList (names.map J.s)

/-- Lexicographic comparison of character lists by code point, the order
JavaScript's default `Array.prototype.sort()` applies to these strings. -/
def charListLe : List Char → List Char → Bool
  | [], _ => true
  | _ :: _, [] => false
  | a :: as, b :: bs => if a = b then charListLe as bs else decide (a < b)

/-- Lexicographic string comparison used to embed `required.sort()`. -/
def strLeB (a b : String) : Bool := charListLe a.data b.data

/-- Inserts a string into a lexicographically sorted list. -/
def insertSorted (x : String) : List String → List String
  | [] => [x]
  | y :: ys => if strLeB x y then x :: y :: ys else y :: insertSorted x ys

/-- Embedding of JavaScript's `Array.prototype.sort()` on an array of
strings: a stable sort by lexicographic comparison. -/
def sortStrings : List String → List String
  | [] => []
  | x :: xs => insertSorted x (sortStrings xs)

/-- Failure classification of the type-descriptor compiler:
`unsupported` embeds `UnsupportedTypeError` (recoverable per named type),
`unknown` embeds the default-case `Error('unknown type ...')`, and
`assertFail` embeds a failed `assert` (or an equivalent runtime type error),
neither of which is an `UnsupportedTypeError`. -/
inductive CErr where
  | unsupported (msg : String)
  | unknown (msg : String)
  | assertFail
deriving DecidableEq, Repr

mutual

/-- Type-expression AST consumed by `parseDesc`, one constructor per
`desc.type` case of the source. In `object`, `hasCallProps` embeds
`desc.callProperties.length !== 0`, `indexers` keeps the indexers' value
types (their key types are unused by the source), and `props` keeps the
named properties in declaration order. In `generic`, `params` embeds
`desc.typeParameters.params`. -/
inductive TypeNode where
  | strLit (v : String)
  | numLit (v : Int)
  | boolLit (v : Bool)
  | nullLit
  | strT
  | numT
  | boolT
  | voidT
  | anyT
  | nullable (inner : TypeNode)
  | object (hasCallProps : Bool) (indexers : TNList) (props : PropList) (exact : Bool)
  | tuple (types : TNList)
  | generic (name : String) (params : TNList)
  | union (types : TNList)

/-- Ordered list of type nodes (tuple elements, union alternatives,
generic type arguments, indexer value types). -/
inductive TNList where
  | nil
  | cons (hd : TypeNode) (tl : TNList)

/-- Ordered list of object type properties `{name, optional, value}`. -/
inductive PropList where
  | nil
  | cons (name : String) (optional : Bool) (value : TypeNode) (tl : PropList)

end

mutual

/-- Embedding of `parseDesc` from the asynchronous module (the module of
`callFlowAutoRetry`): compiles one type AST node to a JSON-schema fragment
or fails. Object fields are produced in the source's insertion order;
`required.sort()` is embedded as `sortStrings`. -/
def parseDesc : TypeNode → Except CErr J
  | .strLit v =>
    .ok (.obj (.cons "type" (.s "string") (.cons "enum" (.arr (.cons (.s v) .nil)) .nil)))
  | .numLit v =>
    .ok (.obj (.cons "type" (.s "number") (.cons "enum" (.arr (.cons (.n v) .nil)) .nil)))
  | .boolLit v =>
    .ok (.obj (.cons "type" (.s "boolean") (.cons "enum" (.arr (.cons (.b v) .nil)) .nil)))
  | .nullLit => .ok (.obj (.cons "type" (.s "null") .nil))
  | .strT => .ok (.obj (.cons "type" (.s "string") .nil))
  | .numT => .ok (.obj (.cons "type" (.s "number") .nil))
  | .boolT => .ok (.obj (.cons "type" (.s "boolean") .nil))
  | .voidT => .error (.unsupported "undefined types not supported")
  | .anyT => .ok (.obj .nil)
  | .nullable inner =>
    match parseDesc inner with
    | .error e => .error e
    | .ok innerJ =>
      .ok (.obj (.cons "anyOf"
        (.arr (.cons (.obj (.cons "type" (.s "null") .nil)) (.cons innerJ .nil))) .nil))
  | .object true _ _ _ => .error (.unsupported "call properties not supported")
  | .object false (.cons _ _) (.cons _ _ _ _) _ =>
    .error (.unsupported "objects with both static properties and indexed properties are not supported")
  | .object false (.cons ivt _) .nil _ =>
    match parseDesc ivt with
    | .error e => .error e
    | .ok valueType =>
      .ok (.obj (.cons "type" (.s "object")
        (.cons "patternProperties" (.obj (.cons ".*" valueType .nil))
        (.cons "additionalProperties" (.b false) .nil))))
  | .object false .nil props exact =>
    match parseDescProps props .nil [] with
    | .error e => .error e
    | .ok (fields, required) =>
      .ok (.obj (.cons "type" (.s "object")
        (.cons "properties" (.obj fields)
        (.cons "required" (.arr (jStrings (sortStrings required)))
        (if exact then .cons "additionalProperties" (.b false) .nil else .nil)))))
  | .tuple types =>
    match parseDescList types with
    | .error e => .error e
    | .ok items => .ok (.obj (.cons "type" (.s "array") (.cons "items" (.arr items) .nil)))
  | .generic name params =>
    if name = "Array" then
      match params with
      | .cons t .nil =>
        match parseDesc t with
        | .error e => .error e
        | .ok r => .ok (.obj (.cons "type" (.s "array") (.cons "items" r .nil)))
      | _ => .error .assertFail
    else if name = "$Exact" then
      match params with
      | .cons t .nil =>
        match parseDesc t with
        | .error e => .error e
        | .ok r =>
          match r with
          | .obj fields =>
            match getField fields "type" with
            | some (.s tv) =>
              if tv = "object" then
                .ok (.obj (setField fields "additionalProperties" (.b false)))
              else .ok (.obj fields)
            | _ => .ok (.obj fields)
          | other => .ok other
      | _ => .error .assertFail
    else .error (.unsupported ("unsupported type: " ++ name))
  | .union types =>
    match parseDescList types with
    | .error e => .error e
    | .ok alts => .ok (.obj (.cons "anyOf" (.arr alts) .nil))

/-- Embedding of `desc.types.map(parseDesc)`: compiles each element,
propagating the first thrown error. -/
def parseDescList : TNList → Except CErr JList
  | .nil => .ok .nil
  | .cons t tl =>
    match parseDesc t with
    | .error e => .error e
    | .ok j =>
      match parseDescList tl with
      | .error e => .error e
      | .ok js => .ok (.cons j js)

/-- Embedding of the property loop of the plain-object branch: accumulates
`res.properties` (assignment semantics via `setField`) and the keys pushed
onto `res.required` (names whose `optional` flag is not `true`, in
declaration order, before sorting). -/
def parseDescProps : PropList → JFields → List String → Except CErr (JFields × List String)
  | .nil, fields, required => .ok (fields, required)
  | .cons key opt value tl, fields, required =>
    match parseDesc value with
    | .error e => .error e
    | .ok j => parseDescProps tl (setField fields key j) (if opt then required else required ++ [key])

end

mutual

/-- Embedding of `parseDesc` from the synchronous module `src/index.js`
(lines 25-154), translated independently of the asynchronous module's copy
so that the two can be compared. -/
def parseDescS : TypeNode → Except CErr J
  | .strLit v =>
    .ok (.obj (.cons "type" (.s "string") (.cons "enum" (.arr (.cons (.s v) .nil)) .nil)))
  | .numLit v =>
    .ok (.obj (.cons "type" (.s "number") (.cons "enum" (.arr (.cons (.n v) .nil)) .nil)))
  | .boolLit v =>
    .ok (.obj (.cons "type" (.s "boolean") (.cons "enum" (.arr (.cons (.b v) .nil)) .nil)))
  | .nullLit => .ok (.obj (.cons "type" (.s "null") .nil))
  | .strT => .ok (.obj (.cons "type" (.s "string") .nil))
  | .numT => .ok (.obj (.cons "type" (.s "number") .nil))
  | .boolT => .ok (.obj (.cons "type" (.s "boolean") .nil))
  | .voidT => .error (.unsupported "undefined types not supported")
  | .anyT => .ok (.obj .nil)
  | .nullable inner =>
    match parseDescS inner with
    | .error e => .error e
    | .ok innerJ =>
      .ok (.obj (.cons "anyOf"
        (.arr (.cons (.obj (.cons "type" (.s "null") .nil)) (.cons innerJ .nil))) .nil))
  | .object true _ _ _ => .error (.unsupported "call properties not supported")
  | .object false (.cons _ _) (.cons _ _ _ _) _ =>
    .error (.unsupported "objects with both static properties and indexed properties are not supported")
  | .object false (.cons ivt _) .nil _ =>
    match parseDescS ivt with
    | .error e => .error e
    | .ok valueType =>
      .ok (.obj (.cons "type" (.s "object")
        (.cons "patternProperties" (.obj (.cons ".*" valueType .nil))
        (.cons "additionalProperties" (.b false) .nil))))
  | .object false .nil props exact =>
    match parseDescSProps props .nil [] with
    | .error e => .error e
    | .ok (fields, required) =>
      .ok (.obj (.cons "type" (.s "object")
        (.cons "properties" (.obj fields)
        (.cons "required" (.arr (jStrings (sortStrings required)))
        (if exact then .cons "additionalProperties" (.b false) .nil else .nil)))))
  | .tuple types =>
    match parseDescSList types with
    | .error e => .error e
    | .ok items => .ok (.obj (.cons "type" (.s "array") (.cons "items" (.arr items) .nil)))
  | .generic name params =>
    if name = "Array" then
      match params with
      | .cons t .nil =>
        match parseDescS t with
        | .error e => .error e
        | .ok r => .ok (.obj (.cons "type" (.s "array") (.cons "items" r .nil)))
      | _ => .error .assertFail
    else if name = "$Exact" then
      match params with
      | .cons t .nil =>
        match parseDescS t with
        | .error e => .error e
        | .ok r =>
          match r with
          | .obj fields =>
            match getField fields "type" with
            | some (.s tv) =>
              if tv = "object" then
                .ok (.obj (setField fields "additionalProperties" (.b false)))
              else .ok (.obj fields)
            | _ => .ok (.obj fields)
          | other => .ok other
      | _ => .error .assertFail
    else .error (.unsupported ("unsupported type: " ++ name))
  | .union types =>
    match parseDescSList types with
    | .error e => .error e
    | .ok alts => .ok (.obj (.cons "anyOf" (.arr alts) .nil))

/-- Embedding of `desc.types.map(parseDesc)` in the synchronous module. -/
def parseDescSList : TNList → Except CErr JList
  | .nil => .ok .nil
  | .cons t tl =>
    match parseDescS t with
    | .error e => .error e
    | .ok j =>
      match parseDescSList tl with
      | .error e => .error e
      | .ok js => .ok (.cons j js)

/-- Embedding of the property loop of the synchronous module's plain-object
branch. -/
def parseDescSProps : PropList → JFields → List String → Except CErr (JFields × List String)
  | .nil, fields, required => .ok (fields, required)
  | .cons key opt value tl, fields, required =>
    match parseDescS value with
    | .error e => .error e
    | .ok j => parseDescSProps tl (setField fields key j) (if opt then required else required ++ [key])

end

example : parseDesc (.nullable .strT) =
    .ok (.obj (.cons "anyOf" (.arr (.cons (.obj (.cons "type" (.s "null") .nil))
      (.cons (.obj (.cons "type" (.s "string") .nil)) .nil))) .nil)) := rfl

example : parseDesc (.object false .nil
    (.cons "c" true .strT (.cons "a" false .strT (.cons "b" false .strT .nil))) false) =
    .ok (.obj (.cons "type" (.s "object")
      (.cons "properties" (.obj (.cons "c" (.obj (.cons "type" (.s "string") .nil))
        (.cons "a" (.obj (.cons "type" (.s "string") .nil))
        (.cons "b" (.obj (.cons "type" (.s "string") .nil)) .nil))))
      (.cons "required" (.arr (jStrings ["a", "b"])) .nil)))) := rfl

mutual

/-- Pointwise equality of the two compiler copies, proved together with its
list and property-loop companions by mutual structural induction. -/
theorem parseDesc_eq : (t : TypeNode) → parseDesc t = parseDescS t
  | .strLit _ => rfl
  | .numLit _ => rfl
  | .boolLit _ => rfl
  | .nullLit => rfl
  | .strT => rfl
  | .numT => rfl
  | .boolT => rfl
  | .voidT => rfl
  | .anyT => rfl
  | .nullable inner => by
    simp only [parseDesc, parseDescS, parseDesc_eq inner]
  | .object true idxs props ex => rfl
  | .object false (.cons a b) (.cons c d e f) ex => rfl
  | .object false (.cons ivt itl) .nil ex => by
    simp only [parseDesc, parseDescS, parseDesc_eq ivt]
  | .object false .nil props ex => by
    simp only [parseDesc, parseDescS, parseDescProps_eq props .nil []]
  | .tuple types => by
    simp only [parseDesc, parseDescS, parseDescList_eq types]
  | .generic name .nil => by
    simp only [parseDesc, parseDescS]
  | .generic name (.cons t .nil) => by
    simp only [parseDesc, parseDescS, parseDesc_eq t]
  | .generic name (.cons t (.cons u tl)) => by
    simp only [parseDesc, parseDescS]
  | .union types => by
    simp only [parseDesc, parseDescS, parseDescList_eq types]

/-- Pointwise equality of the two list-mapping loops. -/
theorem parseDescList_eq : (l : TNList) → parseDescList l = parseDescSList l
  | .nil => rfl
  | .cons t tl => by
    simp only [parseDescList, parseDescSList, parseDesc_eq t, parseDescList_eq tl]

/-- Pointwise equality of the two property loops, for every accumulator. -/
theorem parseDescProps_eq : (pl : PropList) → (fields : JFields) → (required : List String) →
    parseDescProps pl fields required = parseDescSProps pl fields required
  | .nil, fields, required => rfl
  | .cons key opt value tl, fields, required => by
    simp only [parseDescProps, parseDescSProps, parseDesc_eq value]
    cases parseDescS value with
    | error e => rfl
    | ok j => exact parseDescProps_eq tl (setField fields key j) (if opt then required else required ++ [key])

end

/-- Cancellation argument of the cancellable delay: the special `ABANDON`
marker leaves the promise pending forever; any other value resolves it. -/
inductive CancelArg (T : Type) where
  | abandon
  | withVal (v : T)

/-- Observable state of one `sleep(msec, val)` handle: whether the timer is
still armed (`timerId != null`), the promise's resolution if settled, and
the value the timer would resolve with on natural elapse. -/
structure SleepState (T : Type) where
  timerArmed : Bool
  resolved : Option T
  val : T

/-- State of a freshly created `sleep` handle: timer armed, promise pending. -/
def sleepMk {T : Type} (v : T) : SleepState T :=
  { timerArmed := true, resolved := none, val := v }

/-- Resolving a JS promise: a no-op if it is already settled. -/
def resolveP {T : Type} (p : Option T) (v : T) : Option T :=
  match p with
  | none => some v
  | some w => some w

/-- Embedding of the handle's `cancel(resolveWith)`: only acts while the
timer is still armed; clears the timer, and resolves the promise unless the
argument is the `ABANDON` marker. -/
def sleepCancel {T : Type} (a : CancelArg T) (st : SleepState T) : SleepState T :=
  if st.timerArmed then
    match a with
    | .abandon => { st with timerArmed := false }
    | .withVal v => { st with timerArmed := false, resolved := resolveP st.resolved v }
  else st

/-- Embedding of the timer firing naturally: the `setTimeout` callback nulls
the timer id and resolves the promise with the stored value. It can only run
while the timer is armed (cancel clears the timeout). -/
def sleepElapse {T : Type} (st : SleepState T) : SleepState T :=
  if st.timerArmed then
    { st with timerArmed := false, resolved := resolveP st.resolved st.val }
  else st

/-- Attempt-failure data observed by `callFlowAutoRetry`'s catch blocks:
whether the error object carries `killed` and whether its `errno` equals
`'ETIMEDOUT'`, plus a distinguishing message. -/
structure ErrInfo where
  killed : Bool
  timedOut : Bool
  msg : String
deriving DecidableEq, Repr

/-- Classification used by both catch blocks of `callFlowAutoRetry`:
`err.killed || err.errno === 'ETIMEDOUT'`. -/
def retryableB (e : ErrInfo) : Bool := e.killed || e.timedOut

/-- One slot of the `childs`/`promises` arrays of `callFlowAutoRetry`:
`pending` embeds `promises[idx] != null`, `live` embeds
`childs[idx] != null` (a spawned process whose exit callback has not run),
and `killed` embeds the child object's `killed` flag. -/
structure Slot where
  pending : Bool
  live : Bool
  killed : Bool
deriving DecidableEq, Repr

/-- Slot created by a `launch()` whose `execFile` call succeeded. -/
def liveSlot : Slot := { pending := true, live := true, killed := false }

/-- Slot created by a `launch()` whose `execFile` call threw synchronously
inside the promise executor: `childs[idx]` stays undefined while
`promises[idx]` holds a rejected promise that is never nulled. -/
def phantomSlot : Slot := { pending := true, live := false, killed := false }

/-- Exit callback of child `j` having run: `childs[j] = null` and
`promises[j] = null` (out-of-range indices are impossible in real runs and
are ignored). -/
def markExited (slots : List Slot) (j : Nat) : List Slot :=
  slots.set j { pending := false, live := false, killed := false }

/-- Scheduler event deciding one `Promise.race` of the invoker:
either the launch threw synchronously and the race is settled by that
attempt's already-rejected promise, or the round timer fired first, or the
race was settled by child `j`'s exit (success or failure). -/
inductive RoundEvent where
  | launchThrow (e : ErrInfo)
  | timeout
  | childSuccess (j : Nat) (out : String)
  | childError (j : Nat) (e : ErrInfo)
deriving DecidableEq, Repr

/-- Events whose round ends with `continue` in the retry loop. -/
def continuesB : RoundEvent → Bool
  | .launchThrow e => retryableB e
  | .timeout => true
  | .childSuccess _ _ => false
  | .childError _ e => retryableB e

/-- Completion of one `callFlowAutoRetry` call: a successful stdout string,
a propagated fatal attempt error, the `max retry count exceeded` error after
the drain found no pending attempt, or a script too short to decide the
call (no real execution stops there, since every spawned process
eventually settles). -/
inductive Outcome where
  | ok (out : String)
  | fatal (e : ErrInfo)
  | exhausted
  | incomplete
deriving DecidableEq, Repr

/-- Embedding of the drain loop after the retry rounds: keeps racing the
still-pending attempt promises (no new launches, no timer) until one
succeeds, a non-retryable failure propagates, or no pending attempt is
left, which raises the `max retry count exceeded` error. -/
def runDrain : List Slot → List RoundEvent → Outcome × List Slot
  | slots, script =>
    if slots.all (fun s => !s.pending) then (.exhausted, slots)
    else
      match script with
      | [] => (.incomplete, slots)
      | ev :: rest =>
        match ev with
        | .childSuccess j out => (.ok out, markExited slots j)
        | .childError j e =>
          if retryableB e then runDrain (markExited slots j) rest
          else (.fatal e, markExited slots j)
        | _ => runDrain slots rest

/-- Embedding of the retry loop of `callFlowAutoRetry` (MAX_RETRIES = 20):
each round launches one more attempt (appending a live slot, or a phantom
slot whose promise is already rejected when the launch throws) and races
the pending attempts against the round timer; retryable failures and
timer expiries continue with the next round, a success returns, any other
failure propagates. After 20 rounds the drain phase runs. -/
def runLoop : Nat → List Slot → List RoundEvent → Outcome × List Slot
  | i, slots, script =>
    if i < 20 then
      match script with
      | [] => (.incomplete, slots)
      | ev :: rest =>
        match ev with
        | .launchThrow e =>
          if retryableB e then runLoop (i + 1) (slots ++ [phantomSlot]) rest
          else (.fatal e, slots ++ [phantomSlot])
        | .timeout => runLoop (i + 1) (slots ++ [liveSlot]) rest
        | .childSuccess j out => (.ok out, markExited (slots ++ [liveSlot]) j)
        | .childError j e =>
          if retryableB e then runLoop (i + 1) (markExited (slots ++ [liveSlot]) j) rest
          else (.fatal e, markExited (slots ++ [liveSlot]) j)
    else runDrain slots script

/-- Embedding of `killall()`: walks the `childs` array in order and calls
`child.kill()` on every slot that is non-null and not yet killed. `kb idx`
tells whether the kill of slot `idx` throws; a throw aborts the walk at
that slot (the remaining slots are not visited) and is reported in the
second component. -/
def killallGo (kb : Nat → Bool) : Nat → List Slot → List Slot × Bool
  | _, [] => ([], false)
  | idx, s :: tl =>
    if s.live && !s.killed then
      if kb idx then (s :: tl, true)
      else
        let r := killallGo kb (idx + 1) tl
        ({ s with killed := true } :: r.1, r.2)
    else
      let r := killallGo kb (idx + 1) tl
      (s :: r.1, r.2)

/-- Kill behaviour in which no `child.kill()` call throws. -/
def killNoThrow : Nat → Bool := fun _ => false

/-- Embedding of one `callFlowAutoRetry(args)` execution driven by a
scheduler script: runs the retry loop and the drain inside `try`, then the
`finally` block runs `killall()` with its own try/catch, so a kill error is
logged and swallowed and the completion computed inside the `try` is
returned unchanged. Yields the completion and the final slots. -/
def callFlowAutoRetryM (script : List RoundEvent) (kb : Nat → Bool) : Outcome × List Slot :=
  ((runLoop 0 [] script).1, (killallGo kb 0 (runLoop 0 [] script).2).1)

example : (callFlowAutoRetryM [.timeout, .timeout, .childSuccess 0 "x"] (fun i => i == 1)) =
    (.ok "x", [{ pending := false, live := false, killed := false },
               { pending := true, live := true, killed := false },
               { pending := true, live := true, killed := false }]) := by decide

/-- Result of `flowTypeAtPos`: the expanded type definition source text and
its parsed AST. -/
structure TypeDefnInfo where
  src : String
  ast : TypeNode

/-- One export-relevant item of a module's body, in source order:
`alias` embeds `export type N = ...` (whose definition the oracle expands at
the declaration's position), `reExport` embeds an
`export type {L as E} from 'm'` specifier together with the module path the
oracle resolves `'m'` to, and `localSpec` embeds an `export type {L as E}`
specifier whose local definition lookup yields `defn` (`none` embeds the
`not a type export` case, which warns and returns null). -/
inductive ExportItem where
  | alias (name : String) (defn : TypeDefnInfo)
  | reExport (exported : String) (localName : String) (fromPath : String)
  | localSpec (exported : String) (localName : String) (defn : Option TypeDefnInfo)

/-- Exported name an item matches against `searchName`. -/
def exportedNameOf : ExportItem → String
  | .alias n _ => n
  | .reExport n _ _ => n
  | .localSpec n _ _ => n

/-- First item of the module body exporting the given name, mirroring the
source's in-order scan over `ast.body`. -/
def findExport (items : List ExportItem) (name : String) : Option ExportItem :=
  items.find? (fun it => exportedNameOf it == name)

/-- Module environment: the export items each module path parses to. It
abstracts the file system, the parser and the oracle's module resolution. -/
def ModuleEnv : Type := String → List ExportItem

/-- Failure modes of `flowTypeByName`: the `max recursion limit exceeded`
error and the `type ... cannot be found` error. -/
inductive LookupError where
  | recursionLimit (msg : String)
  | notFound (msg : String)
deriving DecidableEq, Repr

/-- Message of the recursion-limit error, exactly as the source formats it:
it names the exceeded depth and the name/module currently being searched. -/
def recLimitMsg (recDepth : Nat) (searchName path : String) : String :=
  "max recursion limit exceeded: " ++ toString recDepth ++
    " (searching for " ++ searchName ++ " in " ++ path ++ ")"

/-- Recursion body of `flowTypeByName`, made structural on a fuel count.
Every recursive call decrements `gas` and increments `recDepth`, and the
entry point supplies `gas = 6`, so `gas = 6 - (recDepth - initialDepth)`;
the `gas = 0` branch would need `recDepth ≥ initialDepth + 6 ≥ 6`, in which
case the depth guard has already fired, so that branch is unreachable from
the entry point. -/
def flowTypeByNameAux (env : ModuleEnv) :
    Nat → String → String → Nat → Except LookupError (Option TypeDefnInfo)
  | gas, path, searchName, recDepth =>
    if recDepth > 5 then
      .error (.recursionLimit (recLimitMsg recDepth searchName path))
    else
      match findExport (env path) searchName with
      | some (.alias _ defn) => .ok (some defn)
      | some (.reExport _ localName fromPath) =>
        match gas with
        | 0 => .error (.notFound "")
        | g + 1 => flowTypeByNameAux env g fromPath localName (recDepth + 1)
      | some (.localSpec _ _ defn) => .ok defn
      | none =>
        .error (.notFound ("type " ++ searchName ++ " cannot be found in " ++ path))

/-- Embedding of `flowTypeByName(path, searchName, recDepth_)`: resolves an
exported type name in a module, following re-export specifiers into other
modules with the recursion depth incremented, guarded by the depth limit. -/
def flowTypeByName (env : ModuleEnv) (path searchName : String) (recDepth : Nat) :
    Except LookupError (Option TypeDefnInfo) :=
  flowTypeByNameAux env 6 path searchName recDepth

/-- Substring test on character lists (is `needle` an infix of `hay`). -/
def containsAt : List Char → List Char → Bool
  | needle, hay =>
    needle.isPrefixOf hay ||
      match hay with
      | [] => false
      | _ :: t => containsAt needle t

/-- Substring test on strings, used to state what an error message names. -/
def strContains (hay needle : String) : Bool := containsAt needle.data hay.data

/-- Per-type error-isolation step of the schema assembler
(`makeSchemaFlow89`'s `processTypeAlias`/`processExportSpecifier` bodies):
given the already-resolved (exported name, type AST) jobs in order, compile
each with `parseDesc`; an `UnsupportedTypeError` skips that type with a
warning and continues, any other thrown error propagates and aborts the
whole run, and a success stores the schema under the exported name
(JS-object assignment, embedded as `upsertSchema`). -/
def upsertSchema : List (String × J) → String → J → List (String × J)
  | [], name, v => [(name, v)]
  | (k, w) :: tl, name, v =>
    if k = name then (k, v) :: tl else (k, w) :: upsertSchema tl name v

/-- Membership of a name in the assembled schema map. -/
def hasSchemaKey : List (String × J) → String → Bool
  | [], _ => false
  | (k, _) :: tl, name => k == name || hasSchemaKey tl name

/-- Embedding of the assembler's per-type loop (see `upsertSchema`). -/
def makeSchemaFlow89Jobs : List (String × TypeNode) → List (String × J) →
    Except CErr (List (String × J))
  | [], acc => .ok acc
  | (name, t) :: tl, acc =>
    match parseDesc t with
    | .ok schema => makeSchemaFlow89Jobs tl (upsertSchema acc name schema)
    | .error (.unsupported _) => makeSchemaFlow89Jobs tl acc
    | .error e => .error e

/-- Error classes the assembler's catch does not swallow. -/
def fatalCompileB : Except CErr J → Bool
  | .error (.unsupported _) => false
  | .error _ => true
  | .ok _ => false

/-- Successful compilations. -/
def okCompileB : Except CErr J → Bool
  | .ok _ => true
  | _ => false

/-- Error classes embedding `UnsupportedTypeError`. -/
def isUnsupportedB : CErr → Bool
  | .unsupported _ => true
  | _ => false

/-- Spec-side description of the `$Exact` postprocessing: the compiled inner
schema with `additionalProperties: false` forced onto it whenever it is an
object schema (its `type` keyword is `'object'`), and returned unchanged
otherwise. -/
def forceExactIfObject : J → J
  | .obj fields =>
    match getField fields "type" with
    | some (.s tv) =>
      if tv = "object" then .obj (setField fields "additionalProperties" (.b false))
      else .obj fields
    | _ => .obj fields
  | other => other

/-- Non-exact one-property object shape used by the specification's
`$Exact` example. -/
def innerNonExact : TypeNode := .object false .nil (.cons "x" false .strT .nil) false

/-- Claim C9: cancelling a cancellable delay a second time after a previous
cancel is a no-op on the handle's state, and cancelling after the delay has
naturally elapsed is a no-op. -/
theorem claim_C9_sleep_cancel_idempotent :
    ∀ (T : Type) (st : SleepState T) (a b : CancelArg T),
      sleepCancel b (sleepCancel a st) = sleepCancel a st ∧
      sleepCancel b (sleepElapse st) = sleepElapse st := by
  intro T st a b
  rcases st with ⟨ta, r, v⟩
  cases ta <;> cases a <;> cases b <;> simp [sleepCancel, sleepElapse]

/-- Claim C6: an object shape with at least one indexer and at least one
named property always fails to compile with an `UnsupportedTypeError`
(also when it additionally has call properties), never dropping one side. -/
theorem claim_C6_indexer_with_props_unsupported :
    ∀ (hasCall : Bool) (ivt : TypeNode) (itl : TNList) (props : PropList) (ex : Bool),
      props ≠ .nil →
      ∃ msg, parseDesc (.object hasCall (.cons ivt itl) props ex) = .error (.unsupported msg) := by
  intro hasCall ivt itl props ex hne
  cases hasCall with
  | true => exact ⟨"call properties not supported", rfl⟩
  | false =>
    cases props with
    | nil => exact absurd rfl hne
    | cons k o v tl =>
      exact ⟨"objects with both static properties and indexed properties are not supported", rfl⟩

/-- Witness for claim C6 at a concrete indexer-plus-property shape. -/
theorem claim_C6_witness :
    ∃ msg, parseDesc (.object false (.cons .strT .nil) (.cons "a" false .strT .nil) false) =
      .error (.unsupported msg) :=
  claim_C6_indexer_with_props_unsupported false .strT .nil (.cons "a" false .strT .nil) false
    (fun h => PropList.noConfusion h)

/-- Claim C5: compiling `Generic('$Exact',[T])` yields the compilation of
`T` with `additionalProperties: false` forced onto it whenever that result
is an object schema and unchanged otherwise; in particular it forces
`additionalProperties: false` on a non-exact object shape. -/
theorem claim_C5_exact_generic_forces_additional_properties :
    (∀ t : TypeNode,
      parseDesc (.generic "$Exact" (.cons t .nil)) = (parseDesc t).map forceExactIfObject)
    ∧ parseDesc (.generic "$Exact" (.cons innerNonExact .nil)) =
      .ok (.obj (.cons "type" (.s "object")
        (.cons "properties" (.obj (.cons "x" (.obj (.cons "type" (.s "string") .nil)) .nil))
        (.cons "required" (.arr (jStrings ["x"]))
        (.cons "additionalProperties" (.b false) .nil))))) := by
  constructor
  · intro t
    simp only [parseDesc]
    rw [if_neg (by decide)]
    rw [if_pos trivial]
    cases parseDesc t with
    | error e => rfl
    | ok r =>
      simp only [Except.map]
      cases r with
      | obj fields =>
        simp only [forceExactIfObject]
        cases hg : getField fields "type" with
        | none => rfl
        | some jv =>
          cases jv with
          | s tv => by_cases htv : tv = "object" <;> simp [htv]
          | n v => rfl
          | b v => rfl
          | jnull => rfl
          | arr es => rfl
          | obj fs => rfl
      | s v => rfl
      | n v => rfl
      | b v => rfl
      | jnull => rfl
      | arr elems => rfl
  · rfl

/-- Totality of the lexicographic comparison. -/
theorem charListLe_total (as : List Char) :
    ∀ bs, charListLe as bs = true ∨ charListLe bs as = true := by
  induction as with
  | nil => intro bs; left; rfl
  | cons a as ih =>
    intro bs
    cases bs with
    | nil => right; rfl
    | cons b bs =>
      simp only [charListLe]
      by_cases hab : a = b
      · subst hab
        simp only [if_pos rfl]
        exact ih bs
      · have hba : ¬ b = a := fun h => hab h.symm
        rw [if_neg hab, if_neg hba]
        rcases lt_or_gt_of_ne hab with h | h
        · left; exact decide_eq_true h
        · right; exact decide_eq_true h

/-- Transitivity of the lexicographic comparison. -/
theorem charListLe_trans (as : List Char) :
    ∀ bs cs, charListLe as bs = true → charListLe bs cs = true → charListLe as cs = true := by
  induction as with
  | nil => intro bs cs _ _; rfl
  | cons a as ih =>
    intro bs cs h1 h2
    cases bs with
    | nil => simp [charListLe] at h1
    | cons b bs =>
      cases cs with
      | nil => simp [charListLe] at h2
      | cons c cs =>
        simp only [charListLe] at h1 h2 ⊢
        by_cases hab : a = b
        · subst hab
          rw [if_pos rfl] at h1
          by_cases hac : a = c
          · subst hac
            rw [if_pos rfl] at h2 ⊢
            exact ih bs cs h1 h2
          · rw [if_neg hac] at h2 ⊢
            exact h2
        · rw [if_neg hab] at h1
          have h1L : a < b := of_decide_eq_true h1
          by_cases hbc : b = c
          · subst hbc
            rw [if_neg hab]
            exact decide_eq_true h1L
          · rw [if_neg hbc] at h2
            have h2L : b < c := of_decide_eq_true h2
            have hacL : a < c := lt_trans h1L h2L
            rw [if_neg (ne_of_lt hacL)]
            exact decide_eq_true hacL

/-- Totality of `strLeB`. -/
theorem strLeB_total (a b : String) : strLeB a b = true ∨ strLeB b a = true :=
  charListLe_total a.data b.data

/-- Transitivity of `strLeB`. -/
theorem strLeB_trans {a b c : String} (h1 : strLeB a b = true) (h2 : strLeB b c = true) :
    strLeB a c = true :=
  charListLe_trans a.data b.data c.data h1 h2

/-- Inserting into a list is a permutation of prepending. -/
theorem insertSorted_perm (x : String) (l : List String) :
    List.Perm (insertSorted x l) (x :: l) := by
  induction l with
  | nil => simp [insertSorted]
  | cons y ys ih =>
    simp only [insertSorted]
    by_cases h : strLeB x y = true
    · rw [if_pos h]
    · rw [if_neg h]
      exact List.Perm.trans (List.Perm.cons y ih) (List.Perm.swap x y ys)

/-- Sorting is a permutation of the input. -/
theorem sortStrings_perm (l : List String) : List.Perm (sortStrings l) l := by
  induction l with
  | nil => rfl
  | cons x xs ih =>
    exact List.Perm.trans (insertSorted_perm x (sortStrings xs)) (List.Perm.cons x ih)

/-- Inserting into a lexicographically sorted list keeps it sorted. -/
theorem insertSorted_sorted (x : String) (l : List String)
    (h : List.Sorted (fun a b => strLeB a b = true) l) :
    List.Sorted (fun a b => strLeB a b = true) (insertSorted x l) := by
  induction l with
  | nil => simp [insertSorted]
  | cons y ys ih =>
    rw [List.sorted_cons] at h
    obtain ⟨hy, hys⟩ := h
    simp only [insertSorted]
    by_cases hxy : strLeB x y = true
    · rw [if_pos hxy, List.sorted_cons]
      refine ⟨?_, ?_⟩
      · intro b hb
        rcases List.mem_cons.mp hb with hb | hb
        · subst hb; exact hxy
        · exact strLeB_trans hxy (hy b hb)
      · rw [List.sorted_cons]
        exact ⟨hy, hys⟩
    · rw [if_neg hxy, List.sorted_cons]
      have hyx : strLeB y x = true := by
        rcases strLeB_total x y with h | h
        · exact absurd h hxy
        · exact h
      refine ⟨?_, ih hys⟩
      intro b hb
      have hb2 : b ∈ x :: ys := (insertSorted_perm x ys).mem_iff.mp hb
      rcases List.mem_cons.mp hb2 with hbx | hbys
      · subst hbx; exact hyx
      · exact hy b hbys

/-- The output of `sortStrings` is lexicographically sorted. -/
theorem sortStrings_sorted (l : List String) :
    List.Sorted (fun a b => strLeB a b = true) (sortStrings l) := by
  induction l with
  | nil => simp [sortStrings]
  | cons x xs ih => exact insertSorted_sorted x (sortStrings xs) ih

/-- Spec-side characterization of the non-optional property names of an
object shape, in declaration order. -/
def requiredNamesOf : PropList → List String
  | .nil => []
  | .cons k opt _ tl => if opt then requiredNamesOf tl else k :: requiredNamesOf tl

/-- The keys pushed onto `required` by the property loop are exactly the
accumulator followed by the non-optional property names in order. -/
theorem parseDescProps_required :
    (pl : PropList) → ∀ (fields : JFields) (req : List String) (out : JFields × List String),
      parseDescProps pl fields req = .ok out → out.2 = req ++ requiredNamesOf pl
  | .nil => by
    intro fields req out h
    simp only [parseDescProps] at h
    cases h
    simp [requiredNamesOf]
  | .cons k opt v tl => by
    intro fields req out h
    simp only [parseDescProps] at h
    cases hv : parseDesc v with
    | error e => rw [hv] at h; cases h
    | ok j =>
      rw [hv] at h
      have hrec := parseDescProps_required tl (setField fields k j)
        (if opt then req else req ++ [k]) out h
      rw [hrec]
      simp only [requiredNamesOf]
      cases opt <;> simp

/-- Object shape of the specification's required-array example:
properties `[{c,optional:true},{a,optional:false},{b,optional:false}]`. -/
def propsCAB : PropList :=
  .cons "c" true .strT (.cons "a" false .strT (.cons "b" false .strT .nil))

/-- Compiled schema of `propsCAB` as a plain non-exact object shape. -/
def schemaCAB : J :=
  .obj (.cons "type" (.s "object")
    (.cons "properties" (.obj (.cons "c" (.obj (.cons "type" (.s "string") .nil))
      (.cons "a" (.obj (.cons "type" (.s "string") .nil))
      (.cons "b" (.obj (.cons "type" (.s "string") .nil)) .nil))))
    (.cons "required" (.arr (jStrings ["a", "b"])) .nil)))

/-- Claim C4: for every plain object shape (no indexer, no call signature)
that compiles successfully, the `required` array of the compiled schema is
the lexicographically sorted list of the names of the non-optional
properties: it is sorted, and it holds exactly the names whose optional
flag is false; in particular the specification's `c/a/b` example compiles
with `required == ['a','b']`. -/
theorem claim_C4_required_is_sorted_nonoptional_names :
    (∀ (props : PropList) (ex : Bool) (j : J),
      parseDesc (.object false .nil props ex) = .ok j →
      ∃ fields, j = .obj fields ∧
        getField fields "required" =
          some (.arr (jStrings (sortStrings (requiredNamesOf props)))) ∧
        List.Sorted (fun a b => strLeB a b = true) (sortStrings (requiredNamesOf props)) ∧
        (∀ nm : String, nm ∈ sortStrings (requiredNamesOf props) ↔ nm ∈ requiredNamesOf props))
    ∧ (∃ fields, parseDesc (.object false .nil propsCAB false) = .ok (.obj fields) ∧
        getField fields "required" = some (.arr (jStrings ["a", "b"]))) := by
  constructor
  · intro props ex j h
    simp only [parseDesc] at h
    cases hp : parseDescProps props .nil [] with
    | error e => rw [hp] at h; cases h
    | ok out =>
      obtain ⟨fs, req⟩ := out
      rw [hp] at h
      cases h
      have hreq : req = requiredNamesOf props := by
        have h2 := parseDescProps_required props .nil [] (fs, req) hp
        simpa using h2
      refine ⟨_, rfl, ?_, sortStrings_sorted _, fun nm => (sortStrings_perm _).mem_iff⟩
      rw [hreq]
      simp [getField]
  · exact ⟨_, rfl, rfl⟩

/-- Witness for claim C4 at the specification's `c/a/b` example. -/
theorem claim_C4_witness :
    ∃ fields, schemaCAB = .obj fields ∧
      getField fields "required" =
        some (.arr (jStrings (sortStrings (requiredNamesOf propsCAB)))) ∧
      List.Sorted (fun a b => strLeB a b = true) (sortStrings (requiredNamesOf propsCAB)) ∧
      (∀ nm : String, nm ∈ sortStrings (requiredNamesOf propsCAB) ↔ nm ∈ requiredNamesOf propsCAB) :=
  claim_C4_required_is_sorted_nonoptional_names.1 propsCAB false schemaCAB rfl

/-- Key membership after a JS-object assignment. -/
theorem hasSchemaKey_upsert (name : String) (v : J) (nm : String) :
    ∀ acc : List (String × J),
      hasSchemaKey (upsertSchema acc name v) nm = true ↔
        (nm = name ∨ hasSchemaKey acc nm = true) := by
  intro acc
  induction acc with
  | nil =>
    simp only [upsertSchema, hasSchemaKey, Bool.or_false, beq_iff_eq]
    constructor
    · intro h; exact Or.inl h.symm
    · intro h
      rcases h with h | h
      · exact h.symm
      · cases h
  | cons p tl ih =>
    obtain ⟨k, w⟩ := p
    simp only [upsertSchema]
    by_cases hk : k = name
    · rw [if_pos hk]
      subst hk
      simp only [hasSchemaKey, Bool.or_eq_true, beq_iff_eq]
      constructor
      · intro h
        rcases h with h | h
        · exact Or.inl h.symm
        · exact Or.inr (Or.inr h)
      · intro h
        rcases h with h | h | h
        · exact Or.inl h.symm
        · exact Or.inl h
        · exact Or.inr h
    · rw [if_neg hk]
      simp only [hasSchemaKey, Bool.or_eq_true, beq_iff_eq] at ih ⊢
      constructor
      · intro h
        rcases h with h | h
        · exact Or.inr (Or.inl h)
        · rcases ih.mp h with h | h
          · exact Or.inl h
          · exact Or.inr (Or.inr h)
      · intro h
        rcases h with h | h | h
        · exact Or.inr (ih.mpr (Or.inl h))
        · exact Or.inl h
        · exact Or.inr (ih.mpr (Or.inr h))

/-- When no job fails with a non-`UnsupportedTypeError` error, the
assembler loop succeeds and its map holds exactly the accumulator keys plus
the exported names whose compilation succeeded. -/
theorem makeSchemaJobs_ok :
    ∀ (jobs : List (String × TypeNode)) (acc : List (String × J)),
      (∀ jb ∈ jobs, fatalCompileB (parseDesc jb.2) = false) →
      ∃ out, makeSchemaFlow89Jobs jobs acc = .ok out ∧
        ∀ nm, hasSchemaKey out nm = true ↔
          (hasSchemaKey acc nm = true ∨
            ∃ jb ∈ jobs, jb.1 = nm ∧ okCompileB (parseDesc jb.2) = true) := by
  intro jobs
  induction jobs with
  | nil =>
    intro acc _
    exact ⟨acc, rfl, by simp⟩
  | cons hd tl ih =>
    intro acc hall
    obtain ⟨name, t⟩ := hd
    have hhead := hall (name, t) (List.mem_cons_self _ _)
    cases hv : parseDesc t with
    | ok s =>
      have htl : ∀ jb ∈ tl, fatalCompileB (parseDesc jb.2) = false :=
        fun jb hjb => hall jb (List.mem_cons_of_mem _ hjb)
      obtain ⟨out, heq, hiff⟩ := ih (upsertSchema acc name s) htl
      refine ⟨out, ?_, ?_⟩
      · simp only [makeSchemaFlow89Jobs, hv]
        exact heq
      · intro nm
        rw [hiff nm, hasSchemaKey_upsert]
        constructor
        · intro h
          rcases h with (h | h) | h
          · exact Or.inr ⟨(name, t), List.mem_cons_self _ _, h.symm, by simp [hv, okCompileB]⟩
          · exact Or.inl h
          · obtain ⟨jb, hjb, hn, ho⟩ := h
            exact Or.inr ⟨jb, List.mem_cons_of_mem _ hjb, hn, ho⟩
        · intro h
          rcases h with h | ⟨jb, hjb, hn, ho⟩
          · exact Or.inl (Or.inr h)
          · rcases List.mem_cons.mp hjb with hjb | hjb
            · subst hjb; exact Or.inl (Or.inl hn.symm)
            · exact Or.inr ⟨jb, hjb, hn, ho⟩
    | error e =>
      cases e with
      | unsupported m =>
        have htl : ∀ jb ∈ tl, fatalCompileB (parseDesc jb.2) = false :=
          fun jb hjb => hall jb (List.mem_cons_of_mem _ hjb)
        obtain ⟨out, heq, hiff⟩ := ih acc htl
        refine ⟨out, ?_, ?_⟩
        · simp only [makeSchemaFlow89Jobs, hv]
          exact heq
        · intro nm
          rw [hiff nm]
          constructor
          · intro h
            rcases h with h | ⟨jb, hjb, hn, ho⟩
            · exact Or.inl h
            · exact Or.inr ⟨jb, List.mem_cons_of_mem _ hjb, hn, ho⟩
          · intro h
            rcases h with h | ⟨jb, hjb, hn, ho⟩
            · exact Or.inl h
            · rcases List.mem_cons.mp hjb with hjb | hjb
              · subst hjb
                rw [hv] at ho
                simp [okCompileB] at ho
              · exact Or.inr ⟨jb, hjb, hn, ho⟩
      | unknown m => rw [hv] at hhead; simp [fatalCompileB] at hhead
      | assertFail => rw [hv] at hhead; simp [fatalCompileB] at hhead

/-- When some job fails with a non-`UnsupportedTypeError` error, the
assembler loop aborts with such an error. -/
theorem makeSchemaJobs_fatal :
    ∀ (jobs : List (String × TypeNode)) (acc : List (String × J)),
      (∃ jb ∈ jobs, fatalCompileB (parseDesc jb.2) = true) →
      ∃ e, makeSchemaFlow89Jobs jobs acc = .error e ∧ isUnsupportedB e = false := by
  intro jobs
  induction jobs with
  | nil =>
    intro acc h
    obtain ⟨jb, hjb, _⟩ := h
    cases hjb
  | cons hd tl ih =>
    intro acc hex
    obtain ⟨name, t⟩ := hd
    cases hv : parseDesc t with
    | ok s =>
      obtain ⟨jb, hjb, hf⟩ := hex
      rcases List.mem_cons.mp hjb with hjb | hjb
      · subst hjb; rw [hv] at hf; simp [fatalCompileB] at hf
      · obtain ⟨e, heq, hns⟩ := ih (upsertSchema acc name s) ⟨jb, hjb, hf⟩
        refine ⟨e, ?_, hns⟩
        simp only [makeSchemaFlow89Jobs, hv]
        exact heq
    | error e0 =>
      cases e0 with
      | unsupported m =>
        obtain ⟨jb, hjb, hf⟩ := hex
        rcases List.mem_cons.mp hjb with hjb | hjb
        · subst hjb; rw [hv] at hf; simp [fatalCompileB] at hf
        · obtain ⟨e, heq, hns⟩ := ih acc ⟨jb, hjb, hf⟩
          refine ⟨e, ?_, hns⟩
          simp only [makeSchemaFlow89Jobs, hv]
          exact heq
      | unknown m =>
        refine ⟨.unknown m, ?_, by simp [isUnsupportedB]⟩
        simp only [makeSchemaFlow89Jobs, hv]
      | assertFail =>
        refine ⟨.assertFail, ?_, by simp [isUnsupportedB]⟩
        simp only [makeSchemaFlow89Jobs, hv]

/-- Claim C7: during schema assembly, a type whose compilation raises an
`UnsupportedTypeError` is skipped (absent from the resulting map) while
every other exported type is still processed — the run succeeds and the
map holds exactly the names whose compilation succeeded — whereas any
non-`UnsupportedTypeError` compilation failure aborts the whole run. -/
theorem claim_C7_unsupported_type_isolation :
    ∀ jobs : List (String × TypeNode),
      ((∀ jb ∈ jobs, fatalCompileB (parseDesc jb.2) = false) →
        ∃ out, makeSchemaFlow89Jobs jobs [] = .ok out ∧
          ∀ nm, hasSchemaKey out nm = true ↔
            ∃ jb ∈ jobs, jb.1 = nm ∧ okCompileB (parseDesc jb.2) = true)
      ∧ ((∃ jb ∈ jobs, fatalCompileB (parseDesc jb.2) = true) →
        ∃ e, makeSchemaFlow89Jobs jobs [] = .error e ∧ isUnsupportedB e = false) := by
  intro jobs
  constructor
  · intro hall
    obtain ⟨out, heq, hiff⟩ := makeSchemaJobs_ok jobs [] hall
    refine ⟨out, heq, fun nm => ?_⟩
    rw [hiff nm]
    simp [hasSchemaKey]
  · exact makeSchemaJobs_fatal jobs []

/-- Jobs with one unsupported type (`void`) and one good type. -/
def c7jobsOk : List (String × TypeNode) := [("Bad", .voidT), ("Good", .strT)]

/-- Jobs with one type whose compilation fails with a failed assertion
(`Array` applied to zero type arguments), not an `UnsupportedTypeError`. -/
def c7jobsFatal : List (String × TypeNode) := [("Broken", .generic "Array" .nil)]

/-- Witness for claim C7 at concrete job lists for both halves. -/
theorem claim_C7_witness :
    (∃ out, makeSchemaFlow89Jobs c7jobsOk [] = .ok out ∧
      ∀ nm, hasSchemaKey out nm = true ↔
        ∃ jb ∈ c7jobsOk, jb.1 = nm ∧ okCompileB (parseDesc jb.2) = true)
    ∧ (∃ e, makeSchemaFlow89Jobs c7jobsFatal [] = .error e ∧ isUnsupportedB e = false) :=
  ⟨(claim_C7_unsupported_type_isolation c7jobsOk).1 (by decide),
   (claim_C7_unsupported_type_isolation c7jobsFatal).2 (by decide)⟩

/-- Claim C10: the type-descriptor compiler of the synchronous module
`src/index.js` and the one of the asynchronous module are extensionally
equal — on every type AST they return structurally equal schema fragments
or fail with the same error classification. -/
theorem claim_C10_parseDesc_copies_extensionally_equal :
    ∀ t : TypeNode, parseDesc t = parseDescS t :=
  parseDesc_eq

/-- Unfolding of one retry round settled by the round timer. -/
theorem runLoop_timeout (i : Nat) (slots : List Slot) (rest : List RoundEvent) (h : i < 20) :
    runLoop i slots (.timeout :: rest) = runLoop (i + 1) (slots ++ [liveSlot]) rest := by
  conv_lhs => rw [runLoop]
  simp [h]

/-- Unfolding of one retry round whose launch threw synchronously. -/
theorem runLoop_launchThrow (i : Nat) (slots : List Slot) (rest : List RoundEvent)
    (e : ErrInfo) (h : i < 20) :
    runLoop i slots (.launchThrow e :: rest) =
      if retryableB e then runLoop (i + 1) (slots ++ [phantomSlot]) rest
      else (.fatal e, slots ++ [phantomSlot]) := by
  conv_lhs => rw [runLoop]
  simp [h]

/-- Unfolding of one retry round settled by a failing attempt. -/
theorem runLoop_childError (i : Nat) (slots : List Slot) (rest : List RoundEvent)
    (j : Nat) (e : ErrInfo) (h : i < 20) :
    runLoop i slots (.childError j e :: rest) =
      if retryableB e then runLoop (i + 1) (markExited (slots ++ [liveSlot]) j) rest
      else (.fatal e, markExited (slots ++ [liveSlot]) j) := by
  conv_lhs => rw [runLoop]
  simp [h]

/-- Unfolding of one retry round settled by a successful attempt. -/
theorem runLoop_childSuccess (i : Nat) (slots : List Slot) (rest : List RoundEvent)
    (j : Nat) (out : String) (h : i < 20) :
    runLoop i slots (.childSuccess j out :: rest) =
      (.ok out, markExited (slots ++ [liveSlot]) j) := by
  conv_lhs => rw [runLoop]
  simp [h]

/-- Rounds whose race ends in `continue` only change the in-flight state:
after a prefix of such rounds the loop goes on with the remaining script at
the accordingly advanced round counter. -/
theorem runLoop_skip :
    ∀ (pfx : List RoundEvent) (i : Nat) (slots : List Slot) (rest : List RoundEvent),
      (∀ ev ∈ pfx, continuesB ev = true) → i + pfx.length < 20 →
      ∃ slots2, runLoop i slots (pfx ++ rest) = runLoop (i + pfx.length) slots2 rest := by
  intro pfx
  induction pfx with
  | nil =>
    intro i slots rest _ _
    exact ⟨slots, by simp⟩
  | cons ev pfxtl ih =>
    intro i slots rest hcont hlen
    rw [List.length_cons] at hlen
    have hi : i < 20 := by omega
    have hev : continuesB ev = true := hcont ev (List.mem_cons_self _ _)
    have hrest : ∀ e2 ∈ pfxtl, continuesB e2 = true :=
      fun e2 h2 => hcont e2 (List.mem_cons_of_mem _ h2)
    have hlen2 : (i + 1) + pfxtl.length < 20 := by omega
    have hadd : (i + 1) + pfxtl.length = i + (pfxtl.length + 1) := by omega
    cases ev with
    | timeout =>
      rw [List.cons_append, runLoop_timeout i slots _ hi]
      obtain ⟨s2, h2⟩ := ih (i + 1) (slots ++ [liveSlot]) rest hrest hlen2
      rw [hadd] at h2
      exact ⟨s2, by rw [h2, List.length_cons]⟩
    | launchThrow e =>
      simp only [continuesB] at hev
      rw [List.cons_append, runLoop_launchThrow i slots _ e hi, if_pos hev]
      obtain ⟨s2, h2⟩ := ih (i + 1) (slots ++ [phantomSlot]) rest hrest hlen2
      rw [hadd] at h2
      exact ⟨s2, by rw [h2, List.length_cons]⟩
    | childError j e =>
      simp only [continuesB] at hev
      rw [List.cons_append, runLoop_childError i slots _ j e hi, if_pos hev]
      obtain ⟨s2, h2⟩ := ih (i + 1) (markExited (slots ++ [liveSlot]) j) rest hrest hlen2
      rw [hadd] at h2
      exact ⟨s2, by rw [h2, List.length_cons]⟩
    | childSuccess j out => simp [continuesB] at hev

/-- Claim C2: in the retry loop, rounds that fail with a killed or
timed-out condition (or whose timer fires) are swallowed and the loop
continues — a later successful round still returns its result — while the
first failure that is neither a kill nor a timeout propagates immediately
as that error, regardless of everything scripted after it (no further
rounds, no drain phase). -/
theorem claim_C2_fatal_error_propagates_immediately :
    ∀ (pfx rest : List RoundEvent) (kb : Nat → Bool) (j k : Nat) (e : ErrInfo) (out : String),
      (∀ ev ∈ pfx, continuesB ev = true) → pfx.length < 20 →
      (retryableB e = false →
        (callFlowAutoRetryM (pfx ++ .childError j e :: rest) kb).1 = .fatal e)
      ∧ (callFlowAutoRetryM (pfx ++ .childSuccess k out :: rest) kb).1 = .ok out := by
  intro pfx rest kb j k e out hcont hlen
  constructor
  · intro hnr
    show (runLoop 0 [] (pfx ++ .childError j e :: rest)).1 = .fatal e
    obtain ⟨s2, h2⟩ := runLoop_skip pfx 0 [] (.childError j e :: rest) hcont (by omega)
    rw [h2, runLoop_childError _ _ _ _ _ (by omega), if_neg (by simp [hnr])]
  · show (runLoop 0 [] (pfx ++ .childSuccess k out :: rest)).1 = .ok out
    obtain ⟨s2, h2⟩ := runLoop_skip pfx 0 [] (.childSuccess k out :: rest) hcont (by omega)
    rw [h2, runLoop_childSuccess _ _ _ _ _ (by omega)]

/-- Witness for claim C2: after a timer round and a killed-attempt round,
a non-retryable error propagates even with a success scripted later, and a
success round returns its output. -/
theorem claim_C2_witness :
    ((callFlowAutoRetryM
        ([.timeout, .childError 0 ⟨true, false, "killed"⟩] ++
          .childError 1 ⟨false, false, "boom"⟩ :: [.childSuccess 2 "late"]) killNoThrow).1 =
      .fatal ⟨false, false, "boom"⟩)
    ∧ (callFlowAutoRetryM
        ([.timeout, .childError 0 ⟨true, false, "killed"⟩] ++
          .childSuccess 2 "yay" :: []) killNoThrow).1 = .ok "yay" :=
  ⟨(claim_C2_fatal_error_propagates_immediately
      [.timeout, .childError 0 ⟨true, false, "killed"⟩] [.childSuccess 2 "late"]
      killNoThrow 1 2 ⟨false, false, "boom"⟩ "yay" (by decide) (by decide)).1 (by decide),
   (claim_C2_fatal_error_propagates_immediately
      [.timeout, .childError 0 ⟨true, false, "killed"⟩] []
      killNoThrow 1 2 ⟨false, false, "boom"⟩ "yay" (by decide) (by decide)).2⟩

/-- Synchronous process-start error: a thrown `TypeError`-like object with
neither a `killed` flag nor `errno === 'ETIMEDOUT'`. -/
def spawnErr : ErrInfo := ⟨false, false, "spawn error"⟩

/-- Counterexample to claim C3 as stated: a synchronous launch throw in
round 0 makes the whole invocation fail with that error — the loop does not
proceed to the later rounds, whose scripted success is never returned. -/
theorem claim_C3_counterexample :
    (callFlowAutoRetryM [.launchThrow spawnErr, .timeout, .childSuccess 0 "ok"] killNoThrow).1 =
      .fatal spawnErr := by decide

/-- Claim C3 as amended: a synchronous throw while starting an attempt's
process is captured as a rejection of that attempt's result promise and
classified by the same kill/timeout test as any attempt failure; since a
synchronous start error carries neither marker, it propagates immediately
as a fatal error of the whole invocation instead of counting as a failed
attempt. -/
theorem claim_C3_sync_launch_throw_is_fatal :
    ∀ (pfx rest : List RoundEvent) (kb : Nat → Bool) (e : ErrInfo),
      (∀ ev ∈ pfx, continuesB ev = true) → pfx.length < 20 → retryableB e = false →
      (callFlowAutoRetryM (pfx ++ .launchThrow e :: rest) kb).1 = .fatal e := by
  intro pfx rest kb e hcont hlen hnr
  show (runLoop 0 [] (pfx ++ .launchThrow e :: rest)).1 = .fatal e
  obtain ⟨s2, h2⟩ := runLoop_skip pfx 0 [] (.launchThrow e :: rest) hcont (by omega)
  rw [h2, runLoop_launchThrow _ _ _ _ (by omega), if_neg (by simp [hnr])]

/-- Witness for the amended claim C3 at a concrete script. -/
theorem claim_C3_witness :
    (callFlowAutoRetryM ([.timeout] ++ .launchThrow spawnErr :: [.childSuccess 0 "ok"])
      killNoThrow).1 = .fatal spawnErr :=
  claim_C3_sync_launch_throw_is_fatal [.timeout] [.childSuccess 0 "ok"] killNoThrow spawnErr
    (by decide) (by decide) (by decide)

/-- Every slot that `killall()` visits when no kill throws ends up exited
or killed. -/
theorem killallGo_noThrow :
    ∀ (slots : List Slot) (idx : Nat) (s : Slot),
      s ∈ (killallGo killNoThrow idx slots).1 → s.live = false ∨ s.killed = true := by
  intro slots
  induction slots with
  | nil =>
    intro idx s hs
    simp [killallGo] at hs
  | cons a tl ih =>
    intro idx s hs
    simp only [killallGo] at hs
    by_cases ha : (a.live && !a.killed) = true
    · rw [if_pos ha] at hs
      simp only [killNoThrow, if_false, Bool.false_eq_true] at hs
      rcases List.mem_cons.mp hs with h | h
      · subst h; right; rfl
      · exact ih (idx + 1) s h
    · rw [if_neg ha] at hs
      rcases List.mem_cons.mp hs with h | h
      · subst h
        cases hl : s.live with
        | false => exact Or.inl rfl
        | true =>
          cases hk : s.killed with
          | true => exact Or.inr rfl
          | false => exact absurd (by rw [hl, hk]; rfl) ha
      · exact ih (idx + 1) s h

/-- Script of the C1 counterexample: two timed-out rounds, then the first
attempt succeeds in round 2, leaving attempts 1 and 2 still live. -/
def c1script : List RoundEvent := [.timeout, .timeout, .childSuccess 0 "x"]

/-- Kill behaviour of the C1 counterexample: killing slot 1 throws. -/
def c1kb : Nat → Bool := fun idx => idx == 1

/-- Counterexample to claim C1 as stated: when a `child.kill()` throws, the
`killall()` walk aborts, so a process that is still live at exit stays
unkilled even though the kill error itself is swallowed. -/
theorem claim_C1_counterexample :
    ¬ (∀ s ∈ (callFlowAutoRetryM c1script c1kb).2, s.live = true → s.killed = true) := by
  decide

/-- Claim C1 as amended: on every exit path (success, fatal error,
exhaustion) the `finally` block runs `killall()` and swallows (logs) any
kill error, so the call's completion never depends on the kill behaviour;
and when no kill throws, every still-live spawned process has been killed
by the time the call returns. A kill error, however, aborts the kill walk
and leaves the remaining live processes unkilled. -/
theorem claim_C1_killall_on_every_exit_path :
    ∀ (script : List RoundEvent) (kb : Nat → Bool),
      (callFlowAutoRetryM script kb).1 = (callFlowAutoRetryM script killNoThrow).1
      ∧ ∀ s ∈ (callFlowAutoRetryM script killNoThrow).2, s.live = false ∨ s.killed = true := by
  intro script kb
  exact ⟨rfl, fun s hs => killallGo_noThrow (runLoop 0 [] script).2 0 s hs⟩

/-- Witness for the amended claim C1: at the counterexample's script the
completion is identical under the throwing and the non-throwing kill
behaviour, and with no kill error the first final slot is exited. -/
theorem claim_C1_witness :
    ((callFlowAutoRetryM c1script c1kb).1 = (callFlowAutoRetryM c1script killNoThrow).1)
    ∧ ((⟨false, false, false⟩ : Slot).live = false ∨ (⟨false, false, false⟩ : Slot).killed = true) :=
  ⟨(claim_C1_killall_on_every_exit_path c1script c1kb).1,
   (claim_C1_killall_on_every_exit_path c1script c1kb).2 ⟨false, false, false⟩ (by decide)⟩

/-- Cyclic chain of seven modules, each re-exporting `A` from the next:
resolving `A` from `p0` follows six re-export links before the depth guard
fires in `p6`. -/
def env7 : ModuleEnv := fun path =>
  if path = "p0" then [.reExport "A" "A" "p1"]
  else if path = "p1" then [.reExport "A" "A" "p2"]
  else if path = "p2" then [.reExport "A" "A" "p3"]
  else if path = "p3" then [.reExport "A" "A" "p4"]
  else if path = "p4" then [.reExport "A" "A" "p5"]
  else if path = "p5" then [.reExport "A" "A" "p6"]
  else if path = "p6" then [.reExport "A" "A" "p0"]
  else []

/-- Counterexample to claim C8 as stated: following the seven-module
re-export chain from `p0` fails with the recursion-limit error, but the
error message names only the depth and the last link (`A` in `p6`) — the
modules `p0` and `p1` of the chain appear nowhere in it, so the error does
not name the chain of re-exports. -/
theorem claim_C8_counterexample :
    flowTypeByName env7 "p0" "A" 0 = .error (.recursionLimit (recLimitMsg 6 "A" "p6"))
    ∧ strContains (recLimitMsg 6 "A" "p6") "p0" = false
    ∧ strContains (recLimitMsg 6 "A" "p6") "p1" = false :=
  ⟨rfl, rfl, rfl⟩

/-- Claim C8 as amended: resolving a re-exported name is bounded by a fixed
maximum recursion depth of 5; at any greater depth the resolver fails with
a recursion-limit error whose message names the exceeded depth and the
name/module currently being searched (the last link of the chain), not the
whole chain of re-exports. -/
theorem claim_C8_recursion_depth_bounded :
    ∀ (env : ModuleEnv) (path searchName : String) (d : Nat),
      5 < d →
      flowTypeByName env path searchName d =
        .error (.recursionLimit (recLimitMsg d searchName path)) := by
  intro env path searchName d hd
  show flowTypeByNameAux env 6 path searchName d = _
  conv_lhs => rw [flowTypeByNameAux]
  rw [if_pos hd]

/-- Witness for the amended claim C8 at depth 6 in the chain environment. -/
theorem claim_C8_witness :
    flowTypeByName env7 "p0" "A" 6 = .error (.recursionLimit (recLimitMsg 6 "A" "p0")) :=
  claim_C8_recursion_depth_bounded env7 "p0" "A" 6 (by omega)
